import Mathlib

/-
Verification of the Notion-to-Obsidian conversion pipeline (src/server.js).

The pure core of the converter is shallowly embedded here:
  * property values (tagged union over Notion property kinds) and their
    extraction to display values (`extractPropertyValue`, server.js 381-404),
  * JavaScript value semantics needed by the code: truthiness and
    String(value) coercion,
  * filename sanitisation (`sanitizeFilename`, server.js 460-462),
  * the per-record document renderer (`convertPageToMarkdown`, 311-359,
    with block fetching and file writing externalised: the block list is a
    parameter and the markdown text is returned),
  * the block renderer (`convertBlocksToMarkdown`, 407-457),
  * the aggregate-table row builder (`convertToMarkdownTable`, 538-610),
  * the used-property scan of the .base generator (`convertToObsidianBase`,
    651-689),
  * the separate-pages batch loop with its per-record try/catch
    (server.js 254-302), and
  * the sequence of progress percentages emitted during one conversion job
    (server.js 88-308 plus the per-strategy emissions).

Strings are modelled as Lean `String`/`List Char`; JavaScript regular
expression replaces are modelled character by character.  Notion numbers are
JavaScript doubles; they are modelled as integers here, which is faithful for
everything the development states about them (nullability, zero-ness and
decimal printing of integral values).
-/

namespace NotionToObsidian

/-- A JavaScript value as produced by `extractPropertyValue`: a string, a
number, a boolean, or null (the value of `property.number` when the number
is absent). -/
inductive JsValue where
  | str (s : String)
  | num (n : Int)
  | bool (b : Bool)
  | null
deriving DecidableEq, Repr

/-- JavaScript truthiness of a `JsValue` (used by `if (value)`-style tests). -/
def jsTruthy : JsValue → Bool
  | .str s => !s.isEmpty
  | .num n => n != 0
  | .bool b => b
  | .null => false

/-- JavaScript `String(value)` / `value.toString()` coercion. -/
def jsToString : JsValue → String
  | .str s => s
  | .num n => toString n
  | .bool true => "true"
  | .bool false => "false"
  | .null => "null"

/-- A Notion property value: tagged union over the property kinds the code
switches on (server.js 381-404).  Each known kind carries the sub-field the
code reads, with `Option` marking sub-fields that can be absent (JS null);
`other` stands for any type tag outside the known set, carrying the tag. -/
inductive Property where
  | title (runs : List String)
  | rich_text (runs : List String)
  | number (number : Option Int)
  | select (name : Option String)
  | multi_select (names : List String)
  | date (start : Option String)
  | checkbox (checkbox : Bool)
  | url (url : Option String)
  | email (email : Option String)
  | phone_number (phone : Option String)
  | other (tag : String)
deriving DecidableEq, Repr

/-- Whether `property.type === 'title'`. -/
def isTitle : Property → Bool
  | .title _ => true
  | _ => false

/-- `extractPropertyValue(property)`, server.js 381-404.  `rich_text` joins
the runs' plain text with no separator (`|| ''` catches an absent array);
`number` returns `property.number` unchanged, so an absent number is JS
null; `multi_select` joins labels with a comma and space; `title` and every
unknown kind fall to the default branch returning the empty string. -/
def extractPropertyValue : Property → JsValue
  | .rich_text runs => .str (String.join runs)
  | .number n =>
    match n with
    | some v => .num v
    | none => .null
  | .select name => .str (name.getD "")
  | .multi_select names => .str (String.intercalate ", " names)
  | .date start => .str (start.getD "")
  | .checkbox b => .bool b
  | .url u => .str (u.getD "")
  | .email e => .str (e.getD "")
  | .phone_number p => .str (p.getD "")
  | .title _ => .str ""
  | .other _ => .str ""

/-- Characters of the class `[<>:"/\\|?*]` replaced by `sanitizeFilename`. -/
def isForbiddenFilenameChar (c : Char) : Bool :=
  c = '<' || c = '>' || c = ':' || c = '"' || c = '/' || c = '\\' ||
  c = '|' || c = '?' || c = '*'

/-- The JavaScript regular-expression whitespace class `\s`. -/
def isJsWhitespace (c : Char) : Bool :=
  c = ' ' || c = '\t' || c = '\n' || c.val = 11 || c.val = 12 || c = '\r' ||
  c.val = 0xa0 || c.val = 0x1680 ||
  (0x2000 ≤ c.val && c.val ≤ 0x200a) ||
  c.val = 0x2028 || c.val = 0x2029 || c.val = 0x202f || c.val = 0x205f ||
  c.val = 0x3000 || c.val = 0xfeff

/-- `.replace(/[<>:"/\\|?*]/g, '_')`: every forbidden character becomes an
underscore. -/
def replaceForbidden (l : List Char) : List Char :=
  l.map (fun c => if isForbiddenFilenameChar c then '_' else c)

/-- `.replace(/\s+/g, '_')`: each maximal run of whitespace becomes a single
underscore.  The boolean flag records whether the previous character was
part of a whitespace run. -/
def collapseWsAux : Bool → List Char → List Char
  | _, [] => []
  | inRun, c :: rest =>
    if isJsWhitespace c then
      if inRun then collapseWsAux true rest
      else '_' :: collapseWsAux true rest
    else c :: collapseWsAux false rest

/-- `.replace(/\s+/g, '_')` applied to a whole character list. -/
def collapseWhitespace (l : List Char) : List Char :=
  collapseWsAux false l

/-- `sanitizeFilename(filename)`, server.js 460-462:
`filename.replace(/[<>:"/\\|?*]/g, '_').replace(/\s+/g, '_')`. -/
def sanitizeFilename (filename : String) : String :=
  String.mk (collapseWhitespace (replaceForbidden filename.data))

/-- A Notion content block: tagged union over the block kinds the renderer
switches on (server.js 411-452).  Each known kind carries its rich-text
runs, already flattened to their plain text; `code` also carries the
optional language tag; `other` stands for any unrecognized kind, whose
rich-text array may be absent. -/
inductive Block where
  | paragraph (runs : List String)
  | heading_1 (runs : List String)
  | heading_2 (runs : List String)
  | heading_3 (runs : List String)
  | bulleted_list_item (runs : List String)
  | numbered_list_item (runs : List String)
  | code (runs : List String) (language : Option String)
  | quote (runs : List String)
  | other (runs : Option (List String))
deriving DecidableEq, Repr

/-- The text one block contributes to the markdown accumulator: the body of
the switch in `convertBlocksToMarkdown`, server.js 411-452.  Runs are joined
with no separator (`.map(t => t.plain_text).join('')`); the numbered-item
numeral is the literal `1`; an unrecognized kind emits its joined run text
plus a blank line only when the runs are present and non-empty. -/
def renderBlock : Block → String
  | .paragraph runs => String.join runs ++ "\n\n"
  | .heading_1 runs => "# " ++ String.join runs ++ "\n\n"
  | .heading_2 runs => "## " ++ String.join runs ++ "\n\n"
  | .heading_3 runs => "### " ++ String.join runs ++ "\n\n"
  | .bulleted_list_item runs => "- " ++ String.join runs ++ "\n"
  | .numbered_list_item runs => "1. " ++ String.join runs ++ "\n"
  | .code runs language =>
    "```" ++ language.getD "" ++ "\n" ++ String.join runs ++ "\n```\n\n"
  | .quote runs => "> " ++ String.join runs ++ "\n\n"
  | .other none => ""
  | .other (some runs) =>
    if String.join runs = "" then "" else String.join runs ++ "\n\n"

/-- `convertBlocksToMarkdown(blocks)`, server.js 407-457: the loop
`markdown += <per-block chunk>` over the blocks in order. -/
def convertBlocksToMarkdown (blocks : List Block) : String :=
  blocks.foldl (fun markdown block => markdown ++ renderBlock block) ""

/-- `.replace(/\n/g, ' ')`: every newline becomes a space. -/
def replaceNewlines (l : List Char) : List Char :=
  l.map (fun c => if c = '\n' then ' ' else c)

/-- `.replace(/"/g, '\\"')`: every double quote gains a preceding
backslash. -/
def escapeQuotes : List Char → List Char
  | [] => []
  | c :: rest =>
    if c = '"' then '\\' :: '"' :: escapeQuotes rest
    else c :: escapeQuotes rest

/-- `String(value).replace(/\n/g, ' ').replace(/"/g, '\\"')`,
server.js 332 (the `cleanValue` of the frontmatter loop). -/
def cleanHeaderValue (value : JsValue) : List Char :=
  escapeQuotes (replaceNewlines (jsToString value).data)

/-- One iteration of the frontmatter property loop, server.js 327-340: a
title property emits nothing; otherwise the extracted value is emitted only
when truthy, quoted when the cleaned value contains a colon or a newline or
has more than 100 characters. -/
def headerLine (key : String) (property : Property) : String :=
  if isTitle property then "" else
  let value := extractPropertyValue property
  if jsTruthy value then
    let cleanValue := cleanHeaderValue value
    if cleanValue.contains ':' || cleanValue.contains '\n' ||
        decide (cleanValue.length > 100) then
      key ++ ": \"" ++ String.mk cleanValue ++ "\"\n"
    else
      key ++ ": " ++ String.mk cleanValue ++ "\n"
  else ""

/-- A Notion page as consumed by the converter: stable id, ISO timestamps,
and the property map in object-key order. -/
structure Page where
  id : String
  created_time : String
  last_edited_time : String
  properties : List (String × Property)
deriving DecidableEq, Repr

/-- The frontmatter lines contributed by the page's properties: the loop
`for (const [key, property] of Object.entries(page.properties))`,
server.js 327-340, accumulating into `markdown`. -/
def headerEntries (properties : List (String × Property)) : String :=
  properties.foldl (fun markdown kv => markdown ++ headerLine kv.1 kv.2) ""

/-- The page title, server.js 314-315: the plain text of the first run of
the first property whose type is `title`, falling back to
`Page <page.id>` when there is no such property, no run, or an empty
first run. -/
def pageTitle (page : Page) : String :=
  let t :=
    match page.properties.find? (fun kv => isTitle kv.2) with
    | some (_, Property.title runs) => (runs.head?).getD ""
    | _ => ""
  if t = "" then "Page " ++ page.id else t

/-- `convertPageToMarkdown(page, outputPath)`, server.js 311-359, restricted
to its pure part: the markdown text assembled for one page.  Block fetching
is externalised (the block list is the second argument) and the file write
is externalised (the text is returned instead). -/
def convertPageToMarkdown (page : Page) (blocks : List Block) : String :=
  "---\n" ++
  "notion_id: " ++ page.id ++ "\n" ++
  "created: " ++ page.created_time ++ "\n" ++
  "updated: " ++ page.last_edited_time ++ "\n" ++
  headerEntries page.properties ++
  "---\n\n" ++
  "# " ++ pageTitle page ++ "\n\n" ++
  convertBlocksToMarkdown blocks

/-- `.replace(/\|/g, '\\|')`: every pipe gains a preceding backslash. -/
def escapePipes : List Char → List Char
  | [] => []
  | c :: rest =>
    if c = '|' then '\\' :: '|' :: escapePipes rest
    else c :: escapePipes rest

/-- `String(value).replace(/\|/g, '\\|').replace(/\n/g, ' ').slice(0, 100)`,
server.js 578 (the `cleanValue` of the table-row loop). -/
def cleanTableValue (s : String) : String :=
  String.mk ((replaceNewlines (escapePipes s.data)).take 100)

/-- `s.split('T')[0]`: the prefix before the first `T`, used on the ISO
timestamps at server.js 583-584. -/
def dateOnly (s : String) : String :=
  String.mk (s.data.takeWhile (fun c => c != 'T'))

/-- `id.slice(-8)`: the last eight characters (server.js 570). -/
def idSuffix8 (s : String) : String :=
  String.mk (s.data.drop (s.data.length - 8))

/-- The `row` array built for one page by `convertToMarkdownTable`,
server.js 564-585: the raw title (fallback `Page <last 8 of id>`), then one
cell per declared non-title property (`-` when the cleaned value is empty),
then the date parts of the two timestamps.  The title cell is pushed with
no escaping. -/
def tableRowCells (otherProperties : List String) (page : Page) : List String :=
  let title :=
    let t :=
      match page.properties.find? (fun kv => isTitle kv.2) with
      | some (_, Property.title runs) => (runs.head?).getD ""
      | _ => ""
    if t = "" then "Page " ++ idSuffix8 page.id else t
  let propCells := otherProperties.map (fun propName =>
    let value : JsValue :=
      match page.properties.find? (fun kv => kv.1 == propName) with
      | some kv => extractPropertyValue kv.2
      | none => JsValue.str ""
    let cleanValue := cleanTableValue (jsToString value)
    if cleanValue = "" then "-" else cleanValue)
  (title :: propCells) ++ [dateOnly page.created_time, dateOnly page.last_edited_time]

/-- The data rows of the aggregate table: one `row` per page, in page order
(the loop at server.js 564-596). -/
def tableDataRows (otherProperties : List String) (pages : List Page) : List (List String) :=
  pages.map (tableRowCells otherProperties)

/-- Scans for a pipe character not immediately preceded by a backslash;
`prev` is the preceding character, if any. -/
def hasUnescapedPipeAux : Option Char → List Char → Bool
  | _, [] => false
  | prev, c :: rest =>
    (c == '|' && prev != some '\\') || hasUnescapedPipeAux (some c) rest

/-- Whether the string contains a `|` not immediately preceded by `\`. -/
def hasUnescapedPipe (s : String) : Bool :=
  hasUnescapedPipeAux none s.data

/-- The test `value && value.toString().trim()` of server.js 657: the value
is truthy and its string form contains a non-whitespace character (i.e.
trims to a non-empty, truthy string). -/
def usedValue (property : Property) : Bool :=
  let value := extractPropertyValue property
  jsTruthy value && (jsToString value).data.any (fun c => !isJsWhitespace c)

/-- One page's contribution to the `actualProperties` set of
`convertToObsidianBase`, server.js 653-662: every non-title property whose
value passes the `usedValue` test is added to a JS `Set`, modelled as a
first-observation-ordered duplicate-free list. -/
def addActualProperties (acc : List String) (page : Page) : List String :=
  page.properties.foldl (fun acc kv =>
    if !isTitle kv.2 && usedValue kv.2 then
      if acc.contains kv.1 then acc else acc ++ [kv.1]
    else acc) acc

/-- The `actualProperties` scan over the whole batch; its elements are
exactly the property names written into the `properties:` section of the
.base file (the loop at server.js 679-683). -/
def actualProperties (pages : List Page) : List String :=
  pages.foldl addActualProperties []

/-- The success payload of `/api/convert`, server.js 294-302 (the fields
the claims are about). -/
structure ConvertResponse where
  success : Bool
  filesCreated : Nat
  files : List String
deriving DecidableEq, Repr

/-- The separate-pages loop, server.js 254-274: each page is converted
inside try/catch; on success the filename is collected, on failure the
error is logged and the loop continues with the next page.  `render`
abstracts the fallible conversion of a single page (block fetching and
file writing can throw). -/
def separatePagesConvert (render : Page → Except String String) (pages : List Page) : List String :=
  pages.foldl (fun convertedFiles page =>
    match render page with
    | .ok fileName => convertedFiles ++ [fileName]
    | .error _ => convertedFiles) []

/-- The response returned for a separate-pages batch, server.js 294-302:
always a success payload whose count is the number of collected files. -/
def convertDatabaseResponse (render : Page → Except String String) (pages : List Page) : ConvertResponse :=
  let convertedFiles := separatePagesConvert render pages
  { success := true
    filesCreated := convertedFiles.length
    files := convertedFiles }

/-- The conversion format selected by the request body, server.js 241-253. -/
inductive ConversionFormat where
  | separatePages
  | dataviewTable
  | markdownTable
  | obsidianBase
deriving DecidableEq, Repr

/-- `Math.round(num / den)` for natural arguments: `⌊num / den + 1 / 2⌋`. -/
def mathRound (num den : Nat) : Nat :=
  (2 * num + den) / (2 * den)

/-- `Math.round(a + ((i + 1) / total) * b)`: the interpolated percentage
emitted for record `i` (zero-based) of `total` during a phase running from
`a` to `a + b` (server.js 262, 477, 589, 625). -/
def stageProgress (a b total i : Nat) : Nat :=
  mathRound (a * total + b * (i + 1)) total

/-- Percentages emitted by the pagination loop, server.js 177-209: every
fetched batch reports `30 + (cursor ? 10 : 20)`, i.e. 40 while a next
cursor remains and 50 on the final batch; the do-while runs at least
once. -/
def paginationTrace (numBatches : Nat) : List Nat :=
  List.replicate (numBatches - 1) 40 ++ [50]

/-- Percentages emitted by the separate-pages loop, server.js 260-270:
record `i` reports `Math.round(50 + ((i + 1) / total) * 40)` when its
conversion succeeded and `i` is a multiple of 10 or the last index.
`outcomes` lists each record's success. -/
def separateTrace (outcomes : List Bool) : List Nat :=
  (List.range outcomes.length).filterMap (fun i =>
    if outcomes.getD i false && (i % 10 == 0 || i == outcomes.length - 1) then
      some (stageProgress 50 40 outcomes.length i)
    else none)

/-- Percentages emitted by the per-note loops of the Dataview and the
Obsidian-Base strategies, server.js 476-485 and 624-632: as
`separateTrace` but interpolating from 50 to 80. -/
def notesTrace (outcomes : List Bool) : List Nat :=
  (List.range outcomes.length).filterMap (fun i =>
    if outcomes.getD i false && (i % 10 == 0 || i == outcomes.length - 1) then
      some (stageProgress 50 30 outcomes.length i)
    else none)

/-- Percentages emitted by `convertToMarkdownTable`, server.js 541-596: a
fixed 60, then `Math.round(60 + ((i + 1) / total) * 30)` every 50th row
and on the last row (this loop has no try/catch). -/
def tableTrace (total : Nat) : List Nat :=
  60 :: (List.range total).filterMap (fun i =>
    if i % 50 == 0 || i == total - 1 then
      some (stageProgress 60 30 total i)
    else none)

/-- Percentages emitted by the selected format strategy; `outcomes` lists,
per page, whether its individual conversion succeeded.  The Dataview and
Obsidian-Base strategies emit a fixed 85 before writing their extra file,
server.js 492-498 and 640-646. -/
def strategyTrace : ConversionFormat → List Bool → List Nat
  | .separatePages, outcomes => separateTrace outcomes
  | .dataviewTable, outcomes => notesTrace outcomes ++ [85]
  | .markdownTable, outcomes => tableTrace outcomes.length
  | .obsidianBase, outcomes => notesTrace outcomes ++ [85]

/-- The full sequence of progress percentages emitted during one conversion
job that runs to completion with a registered progress consumer,
server.js 88-308: 0 (starting), 10 (searching), 20 (retrieving),
30 (querying), the pagination reports, 50 (converting), the
strategy-specific reports, and the final 100 (complete). -/
def jobProgressTrace (numBatches : Nat) (format : ConversionFormat)
    (outcomes : List Bool) : List Nat :=
  [0, 10, 20, 30] ++ paginationTrace numBatches ++ [50] ++
    strategyTrace format outcomes ++ [100]

/-- The record of claim C1: title "Test", id "abc123", a single-select
`Status` of "Done" and a multi-select `Tags` of ["a", "b"]. -/
def c1Page : Page :=
  { id := "abc123"
    created_time := "2023-01-01T00:00:00.000Z"
    last_edited_time := "2023-01-01T00:00:00.000Z"
    properties :=
      [("Name", Property.title ["Test"]),
       ("Status", Property.select (some "Done")),
       ("Tags", Property.multi_select ["a", "b"])] }

/-- A record whose title contains a pipe character and which has no
non-title properties. -/
def pipeTitlePage : Page :=
  { id := "abcdefgh"
    created_time := "2023-01-01T00:00:00.000Z"
    last_edited_time := "2023-01-02T00:00:00.000Z"
    properties := [("Name", Property.title ["A|B"])] }

/-- A record whose non-title properties are an unchecked checkbox and a
numeric property equal to zero. -/
def uncheckedPage : Page :=
  { id := "p1"
    created_time := "2023-01-01T00:00:00.000Z"
    last_edited_time := "2023-01-01T00:00:00.000Z"
    properties :=
      [("Name", Property.title ["T"]),
       ("Done", Property.checkbox false),
       ("Score", Property.number (some 0))] }

/-! ## Theorems -/

theorem underscore_safe :
    isForbiddenFilenameChar '_' = false ∧ isJsWhitespace '_' = false := by
  decide

theorem mem_collapseWsAux {c : Char} :
    ∀ (flag : Bool) (l : List Char), c ∈ collapseWsAux flag l →
      c = '_' ∨ (c ∈ l ∧ isJsWhitespace c = false) := by
  intro flag l
  induction l generalizing flag with
  | nil => simp [collapseWsAux]
  | cons d rest ih =>
    intro hmem
    by_cases hws : isJsWhitespace d
    · by_cases hflag : flag = true
      · subst hflag
        simp only [collapseWsAux, hws, if_pos, if_true] at hmem
        rcases ih true hmem with h | ⟨h1, h2⟩
        · exact Or.inl h
        · exact Or.inr ⟨List.mem_cons_of_mem _ h1, h2⟩
      · have hflag' : flag = false := by
          cases flag
          · rfl
          · exact absurd rfl hflag
        subst hflag'
        simp only [collapseWsAux, hws, if_pos, if_false] at hmem
        rcases List.mem_cons.mp hmem with h | h
        · exact Or.inl h
        · rcases ih true h with h' | ⟨h1, h2⟩
          · exact Or.inl h'
          · exact Or.inr ⟨List.mem_cons_of_mem _ h1, h2⟩
    · simp only [collapseWsAux, hws, if_neg, if_false, Bool.false_eq_true] at hmem
      rcases List.mem_cons.mp hmem with h | h
      · subst h
        exact Or.inr ⟨List.mem_cons_self _ _, by simpa using hws⟩
      · rcases ih false h with h' | ⟨h1, h2⟩
        · exact Or.inl h'
        · exact Or.inr ⟨List.mem_cons_of_mem _ h1, h2⟩

theorem mem_replaceForbidden {c : Char} {l : List Char}
    (h : c ∈ replaceForbidden l) : c = '_' ∨ isForbiddenFilenameChar c = false := by
  unfold replaceForbidden at h
  rcases List.mem_map.mp h with ⟨d, _, hd⟩
  by_cases hfd : isForbiddenFilenameChar d
  · left
    rw [← hd]
    simp [hfd]
  · right
    rw [← hd]
    simp [hfd]

theorem sanitizeFilename_chars (s : String) :
    ∀ c ∈ (sanitizeFilename s).data,
      isForbiddenFilenameChar c = false ∧ isJsWhitespace c = false := by
  intro c hc
  have hc' : c ∈ collapseWsAux false (replaceForbidden s.data) := by
    simpa [sanitizeFilename, collapseWhitespace] using hc
  rcases mem_collapseWsAux false _ hc' with h | ⟨h1, h2⟩
  · subst h
    exact underscore_safe
  · rcases mem_replaceForbidden h1 with h' | h'
    · subst h'
      exact underscore_safe
    · exact ⟨h', h2⟩

theorem replaceForbidden_id {l : List Char}
    (h : ∀ c ∈ l, isForbiddenFilenameChar c = false) :
    replaceForbidden l = l := by
  unfold replaceForbidden
  induction l with
  | nil => rfl
  | cons c rest ih =>
    have hc := h c (List.mem_cons_self _ _)
    simp only [List.map_cons]
    rw [if_neg (by simp [hc]), ih fun d hd => h d (List.mem_cons_of_mem _ hd)]

theorem collapseWsAux_id {l : List Char}
    (h : ∀ c ∈ l, isJsWhitespace c = false) :
    ∀ flag, collapseWsAux flag l = l := by
  induction l with
  | nil => intro flag; rfl
  | cons c rest ih =>
    intro flag
    have hc := h c (List.mem_cons_self _ _)
    simp only [collapseWsAux]
    rw [if_neg (by simp [hc]), ih (fun d hd => h d (List.mem_cons_of_mem _ hd)) false]

/-- Claim C7: `sanitizeFilename` is total and deterministic (it is a Lean
function); its output never contains one of the characters of the class
`[<>:"/\\|?*]` nor any whitespace character; and it is idempotent. -/
theorem sanitizeFilename_safe_idempotent (s : String) :
    (∀ c ∈ (sanitizeFilename s).data,
        isForbiddenFilenameChar c = false ∧ isJsWhitespace c = false) ∧
    sanitizeFilename (sanitizeFilename s) = sanitizeFilename s := by
  refine ⟨sanitizeFilename_chars s, ?_⟩
  have hchars := sanitizeFilename_chars s
  have hdata : (sanitizeFilename (sanitizeFilename s)).data = (sanitizeFilename s).data := by
    show collapseWhitespace (replaceForbidden (sanitizeFilename s).data) = (sanitizeFilename s).data
    rw [replaceForbidden_id (fun c hc => (hchars c hc).1)]
    unfold collapseWhitespace
    exact collapseWsAux_id (fun c hc => (hchars c hc).2) false
  exact String.ext hdata

theorem foldl_append_string {α : Type} (f : α → String) (l : List α) :
    ∀ init : String,
      l.foldl (fun md x => md ++ f x) init =
        init ++ l.foldl (fun md x => md ++ f x) "" := by
  induction l with
  | nil =>
    intro init
    rw [List.foldl_nil, List.foldl_nil, String.append_empty]
  | cons x tl ih =>
    intro init
    simp only [List.foldl_cons]
    rw [ih (init ++ f x), ih ("" ++ f x), String.empty_append, String.append_assoc]

theorem convertBlocksToMarkdown_append (l1 l2 : List Block) :
    convertBlocksToMarkdown (l1 ++ l2) =
      convertBlocksToMarkdown l1 ++ convertBlocksToMarkdown l2 := by
  unfold convertBlocksToMarkdown
  rw [List.foldl_append]
  exact foldl_append_string _ l2 _

theorem convertBlocksToMarkdown_middle (pre post : List Block) (b : Block) :
    convertBlocksToMarkdown (pre ++ b :: post) =
      convertBlocksToMarkdown pre ++ renderBlock b ++ convertBlocksToMarkdown post := by
  have h1 : pre ++ b :: post = (pre ++ [b]) ++ post := by simp
  have hb : convertBlocksToMarkdown [b] = renderBlock b := by
    show ("" : String) ++ renderBlock b = renderBlock b
    exact String.empty_append _
  rw [h1, convertBlocksToMarkdown_append, convertBlocksToMarkdown_append, hb]

/-- Claim C9: in any block sequence, a bulleted list item contributes
exactly `- ` + joined run text + a single newline, and a numbered list item
contributes the literal `1. ` + joined run text + a single newline,
regardless of its position in the sequence. -/
theorem listItem_rendering (pre post : List Block) (runs : List String) :
    convertBlocksToMarkdown (pre ++ Block.bulleted_list_item runs :: post) =
      convertBlocksToMarkdown pre ++ ("- " ++ String.join runs ++ "\n") ++
        convertBlocksToMarkdown post ∧
    convertBlocksToMarkdown (pre ++ Block.numbered_list_item runs :: post) =
      convertBlocksToMarkdown pre ++ ("1. " ++ String.join runs ++ "\n") ++
        convertBlocksToMarkdown post :=
  ⟨convertBlocksToMarkdown_middle pre post _, convertBlocksToMarkdown_middle pre post _⟩

/-- Claim C1: for the round-trip record (title "Test", id "abc123",
Status "Done", Tags ["a", "b"]), the per-record document carries the header
lines `notion_id: abc123`, `created: 2023-01-01T00:00:00.000Z`,
`Status: Done`, `Tags: a, b` between the `---` delimiters, followed by a
blank line and the line `# Test`. -/
theorem convertPageToMarkdown_c1 :
    convertPageToMarkdown c1Page [] =
      "---\nnotion_id: abc123\ncreated: 2023-01-01T00:00:00.000Z\nupdated: 2023-01-01T00:00:00.000Z\nStatus: Done\nTags: a, b\n---\n\n# Test\n\n" := by
  decide

/-- Claim C8 counterexample: a number property with an absent numeric value
yields JS null, which is not the empty string. -/
theorem extract_absent_number_is_null :
    extractPropertyValue (Property.number none) = JsValue.null ∧
    JsValue.null ≠ JsValue.str "" := by
  decide

/-- Claim C8 (amended): `extractPropertyValue` is total; every kind outside
the switch (any unknown tag, and also `title`) returns the empty string,
and an absent sub-field of the string-producing kinds degrades to the
empty string — but an absent number is returned as JS null, not as the
empty string. -/
theorem extractPropertyValue_total_defaults :
    (∀ tag, extractPropertyValue (Property.other tag) = JsValue.str "") ∧
    (∀ runs, extractPropertyValue (Property.title runs) = JsValue.str "") ∧
    extractPropertyValue (Property.rich_text []) = JsValue.str "" ∧
    extractPropertyValue (Property.select none) = JsValue.str "" ∧
    extractPropertyValue (Property.multi_select []) = JsValue.str "" ∧
    extractPropertyValue (Property.date none) = JsValue.str "" ∧
    extractPropertyValue (Property.url none) = JsValue.str "" ∧
    extractPropertyValue (Property.email none) = JsValue.str "" ∧
    extractPropertyValue (Property.phone_number none) = JsValue.str "" ∧
    extractPropertyValue (Property.number none) = JsValue.null :=
  ⟨fun _ => rfl, fun _ => rfl, by decide, by decide, by decide, by decide,
   by decide, by decide, by decide, rfl⟩

theorem headerEntries_append (l1 l2 : List (String × Property)) :
    headerEntries (l1 ++ l2) = headerEntries l1 ++ headerEntries l2 := by
  unfold headerEntries
  rw [List.foldl_append]
  exact foldl_append_string _ l2 _

/-- Claim C10: a non-title property whose extracted value is falsy (empty
string, the number 0, boolean false, or null) contributes no line to the
frontmatter; title properties contribute none either, their extraction
being the empty string. -/
theorem falsy_property_no_header_line (k : String) (p : Property)
    (l1 l2 : List (String × Property))
    (h : extractPropertyValue p = JsValue.str "" ∨
         extractPropertyValue p = JsValue.num 0 ∨
         extractPropertyValue p = JsValue.bool false ∨
         extractPropertyValue p = JsValue.null) :
    headerEntries (l1 ++ (k, p) :: l2) = headerEntries l1 ++ headerEntries l2 := by
  have hfalsy : jsTruthy (extractPropertyValue p) = false := by
    rcases h with h | h | h | h <;> rw [h] <;> decide
  have hline : headerLine k p = "" := by
    by_cases ht : isTitle p = true
    · simp [headerLine, ht]
    · simp [headerLine, ht, hfalsy]
  have hsplit : l1 ++ (k, p) :: l2 = (l1 ++ [(k, p)]) ++ l2 := by simp
  rw [hsplit, headerEntries_append, headerEntries_append]
  have hsingle : headerEntries [(k, p)] = "" := by
    show ("" : String) ++ headerLine k p = ""
    rw [hline, String.append_empty]
  rw [hsingle, String.append_empty]

/-- Witness for `falsy_property_no_header_line`: an unchecked checkbox and
a numeric property equal to 0 produce no frontmatter line. -/
theorem falsy_property_no_header_line_witness :
    headerEntries [("Done", Property.checkbox false)] = "" ∧
    headerEntries [("Score", Property.number (some 0))] = "" := by
  constructor
  · have h := falsy_property_no_header_line "Done" (Property.checkbox false) [] []
      (Or.inr (Or.inr (Or.inl rfl)))
    exact h.trans (by decide)
  · have h := falsy_property_no_header_line "Score" (Property.number (some 0)) [] []
      (Or.inr (Or.inl rfl))
    exact h.trans (by decide)

theorem mem_replaceNewlines_ne_newline {l : List Char} :
    ∀ c ∈ replaceNewlines l, c ≠ '\n' := by
  intro c hc
  rcases List.mem_map.mp hc with ⟨d, _, hd⟩
  by_cases hdn : d = '\n'
  · rw [← hd, if_pos hdn]
    decide
  · rw [← hd, if_neg hdn]
    exact hdn

theorem mem_escapeQuotes_ne_newline {l : List Char} (h : ∀ c ∈ l, c ≠ '\n') :
    ∀ c ∈ escapeQuotes l, c ≠ '\n' := by
  induction l with
  | nil =>
    intro c hc
    simp [escapeQuotes] at hc
  | cons d rest ih =>
    intro c hc
    have hrest : ∀ c ∈ rest, c ≠ '\n' := fun e he => h e (List.mem_cons_of_mem _ he)
    by_cases hq : d = '"'
    · simp only [escapeQuotes, if_pos hq] at hc
      rcases List.mem_cons.mp hc with rfl | hc
      · decide
      · rcases List.mem_cons.mp hc with rfl | hc
        · decide
        · exact ih hrest c hc
    · simp only [escapeQuotes, if_neg hq] at hc
      rcases List.mem_cons.mp hc with rfl | hc
      · exact h c (List.mem_cons_self _ _)
      · exact ih hrest c hc

theorem cleanHeaderValue_no_newline (v : JsValue) :
    (cleanHeaderValue v).contains '\n' = false := by
  have h : '\n' ∉ cleanHeaderValue v := fun hmem =>
    mem_escapeQuotes_ne_newline mem_replaceNewlines_ne_newline '\n' hmem rfl
  simpa using h

/-- Claim C3 counterexample: the value `a\nb` contains a newline, yet its
header line is emitted unquoted (the newline is collapsed to a space before
the quoting test, so the claimed "quoted when the value contains a newline"
disjunct never fires). -/
theorem headerLine_newline_unquoted :
    (jsToString (extractPropertyValue (Property.rich_text ["a\nb"]))).data.contains '\n' = true ∧
    headerLine "X" (Property.rich_text ["a\nb"]) = "X: a b\n" := by
  decide

/-- Claim C3 (amended): header-value escaping collapses newlines to spaces
and escapes embedded double quotes, and the resulting line is wrapped in
double quotes exactly when the cleaned value contains a colon or exceeds
100 characters; the newline disjunct of the original quoting condition is
vacuous because newlines have already been collapsed. -/
theorem headerLine_quoting (key : String) (p : Property)
    (h1 : isTitle p = false)
    (h2 : jsTruthy (extractPropertyValue p) = true) :
    headerLine key p =
      (if (cleanHeaderValue (extractPropertyValue p)).contains ':' ||
          decide ((cleanHeaderValue (extractPropertyValue p)).length > 100) then
        key ++ ": \"" ++ String.mk (cleanHeaderValue (extractPropertyValue p)) ++ "\"\n"
      else
        key ++ ": " ++ String.mk (cleanHeaderValue (extractPropertyValue p)) ++ "\n") ∧
    (cleanHeaderValue (extractPropertyValue p)).contains '\n' = false := by
  refine ⟨?_, cleanHeaderValue_no_newline _⟩
  simp only [headerLine, h1, h2, cleanHeaderValue_no_newline, Bool.false_eq_true,
    if_false, if_true, Bool.or_false, Bool.false_or]

/-- Witness for `headerLine_quoting`: the value `a:b` (contains a colon)
under the name `Project` is emitted quoted. -/
theorem headerLine_quoting_witness :
    isTitle (Property.rich_text ["a:b"]) = false ∧
    jsTruthy (extractPropertyValue (Property.rich_text ["a:b"])) = true ∧
    headerLine "Project" (Property.rich_text ["a:b"]) = "Project: \"a:b\"\n" := by
  have h := headerLine_quoting "Project" (Property.rich_text ["a:b"])
    (by decide) (by decide)
  refine ⟨by decide, by decide, ?_⟩
  rw [h.1]
  decide

/-- Claim C2 counterexample: for a batch with zero declared non-title
properties and one record whose title is `A|B`, the data row has 3 cells,
not `2 + 0`, and its title cell contains an unescaped pipe. -/
theorem tableRow_counterexample :
    tableRowCells [] pipeTitlePage = ["A|B", "2023-01-01", "2023-01-02"] ∧
    hasUnescapedPipe "A|B" = true ∧
    (tableRowCells [] pipeTitlePage).length ≠ 2 + 0 := by
  decide

theorem hasUnescapedPipeAux_cleanTable (l : List Char) :
    ∀ (prev : Option Char) (n : Nat),
      hasUnescapedPipeAux prev ((replaceNewlines (escapePipes l)).take n) = false := by
  induction l with
  | nil =>
    intro prev n
    simp [escapePipes, replaceNewlines, hasUnescapedPipeAux]
  | cons c tl ih =>
    intro prev n
    by_cases hc : c = '|'
    · subst hc
      have hesc : escapePipes ('|' :: tl) = '\\' :: '|' :: escapePipes tl := by
        simp [escapePipes]
      have hmap : replaceNewlines ('\\' :: '|' :: escapePipes tl) =
          '\\' :: '|' :: replaceNewlines (escapePipes tl) := by
        simp [replaceNewlines]
      rw [hesc, hmap]
      match n with
      | 0 => simp [hasUnescapedPipeAux]
      | 1 => simp [List.take, hasUnescapedPipeAux]
      | Nat.succ (Nat.succ k) =>
        show hasUnescapedPipeAux prev
          ('\\' :: '|' :: List.take k (replaceNewlines (escapePipes tl))) = false
        simp only [hasUnescapedPipeAux]
        simp only [show (('\\' : Char) == '|') = false by decide, Bool.false_and,
          Bool.false_or, show (('|' : Char) == '|') = true by decide,
          show ((some '\\' : Option Char) != some '\\') = false by decide,
          Bool.and_false]
        exact ih (some '|') k
    · have hesc : escapePipes (c :: tl) = c :: escapePipes tl := by
        simp [escapePipes, hc]
      have hmap : replaceNewlines (c :: escapePipes tl) =
          (if c = '\n' then ' ' else c) :: replaceNewlines (escapePipes tl) := by
        simp [replaceNewlines]
      rw [hesc, hmap]
      have hdp : ((if c = '\n' then ' ' else c) == '|') = false := by
        by_cases hcn : c = '\n'
        · rw [if_pos hcn]
          decide
        · rw [if_neg hcn]
          simp [hc]
      match n with
      | 0 => simp [hasUnescapedPipeAux]
      | Nat.succ m =>
        show hasUnescapedPipeAux prev
          ((if c = '\n' then ' ' else c) ::
            List.take m (replaceNewlines (escapePipes tl))) = false
        simp only [hasUnescapedPipeAux, hdp, Bool.false_and, Bool.false_or]
        exact ih (some (if c = '\n' then ' ' else c)) m

theorem cleanTableValue_no_unescaped_pipe (s : String) :
    hasUnescapedPipe (cleanTableValue s) = false :=
  hasUnescapedPipeAux_cleanTable s.data none 100

theorem mem_take_map_append {α β : Type} (f : α → β) (l : List α) (r : List β) (x : β)
    (h : x ∈ (List.map f l ++ r).take l.length) : ∃ a ∈ l, x = f a := by
  rw [show l.length = (List.map f l).length by simp, List.take_left] at h
  rcases List.mem_map.mp h with ⟨a, ha, hfa⟩
  exact ⟨a, ha, hfa.symm⟩

/-- Claim C2 (amended): the aggregate table emits one data row per record;
every data row has exactly `3 + numOtherProperties` cells (title, one per
non-title property, Created, Updated — not `2 + numOtherProperties`); and
no non-title property cell contains an unescaped pipe.  The title cell is
pushed without escaping, so it can contain a raw `|`
(`tableRow_counterexample`). -/
theorem tableRow_shape (otherProperties : List String) (pages : List Page) (page : Page) :
    (tableDataRows otherProperties pages).length = pages.length ∧
    (tableRowCells otherProperties page).length = 3 + otherProperties.length ∧
    (∀ cell ∈ ((tableRowCells otherProperties page).drop 1).take otherProperties.length,
      hasUnescapedPipe cell = false) := by
  refine ⟨by simp [tableDataRows], by simp [tableRowCells]; omega, ?_⟩
  intro cell hcell
  simp only [tableRowCells, List.cons_append, List.drop_succ_cons, List.drop_zero] at hcell
  rcases mem_take_map_append _ _ _ _ hcell with ⟨propName, _, hcellEq⟩
  subst hcellEq
  by_cases hempty :
      cleanTableValue (jsToString
        (match page.properties.find? (fun kv => kv.1 == propName) with
         | some kv => extractPropertyValue kv.2
         | none => JsValue.str "")) = ""
  · rw [if_pos hempty]
    decide
  · rw [if_neg hempty]
    exact cleanTableValue_no_unescaped_pipe _

theorem separatePagesConvert_eq_filterMap (render : Page → Except String String)
    (pages : List Page) :
    ∀ init : List String,
      pages.foldl (fun convertedFiles page =>
        match render page with
        | .ok fileName => convertedFiles ++ [fileName]
        | .error _ => convertedFiles) init =
      init ++ pages.filterMap (fun p => (render p).toOption) := by
  induction pages with
  | nil =>
    intro init
    simp
  | cons p tl ih =>
    intro init
    simp only [List.foldl_cons, List.filterMap_cons]
    cases hr : render p with
    | ok a => simp [hr, ih (init ++ [a]), Except.toOption]
    | error e => simp [hr, ih init, Except.toOption]

theorem filterMap_toOption_length (render : Page → Except String String)
    (pages : List Page) :
    (pages.filterMap (fun p => (render p).toOption)).length +
      (pages.filter (fun p => !(render p).isOk)).length = pages.length := by
  induction pages with
  | nil => simp
  | cons p tl ih =>
    cases hr : render p with
    | ok a =>
      have h1 : (p :: tl).filterMap (fun q => (render q).toOption) =
          a :: tl.filterMap (fun q => (render q).toOption) := by
        rw [List.filterMap_cons, hr]
        rfl
      have h2 : (p :: tl).filter (fun q => !(render q).isOk) =
          tl.filter (fun q => !(render q).isOk) := by
        rw [List.filter_cons, hr]
        simp [Except.isOk, Except.toBool]
      rw [h1, h2]
      simp only [List.length_cons]
      omega
    | error e =>
      have h1 : (p :: tl).filterMap (fun q => (render q).toOption) =
          tl.filterMap (fun q => (render q).toOption) := by
        rw [List.filterMap_cons, hr]
        rfl
      have h2 : (p :: tl).filter (fun q => !(render q).isOk) =
          p :: tl.filter (fun q => !(render q).isOk) := by
        rw [List.filter_cons, hr]
        simp [Except.isOk, Except.toBool]
      rw [h1, h2]
      simp only [List.length_cons]
      omega

/-- Claim C4: for any batch and any per-page outcome, the separate-pages
strategy produces exactly `N - M` files (`N` pages, `M` failures), reports
`filesCreated = N - M`, and still returns a success response; no single
record's failure aborts the batch. -/
theorem separatePages_partial_failure (render : Page → Except String String)
    (pages : List Page) :
    (convertDatabaseResponse render pages).success = true ∧
    (convertDatabaseResponse render pages).filesCreated =
      pages.length - (pages.filter (fun p => !(render p).isOk)).length ∧
    (convertDatabaseResponse render pages).files.length =
      pages.length - (pages.filter (fun p => !(render p).isOk)).length := by
  have hsep : separatePagesConvert render pages =
      pages.filterMap (fun p => (render p).toOption) := by
    have h := separatePagesConvert_eq_filterMap render pages []
    simpa [separatePagesConvert] using h
  have hlen := filterMap_toOption_length render pages
  refine ⟨rfl, ?_, ?_⟩ <;>
    simp only [convertDatabaseResponse, hsep] <;>
    omega

theorem mem_addActualProperties (page : Page) (acc : List String) (k : String) :
    k ∈ addActualProperties acc page ↔
      k ∈ acc ∨ ∃ p, (k, p) ∈ page.properties ∧
        (!isTitle p && usedValue p) = true := by
  unfold addActualProperties
  generalize page.properties = props
  induction props generalizing acc with
  | nil => simp
  | cons kv tl ih =>
    simp only [List.foldl_cons]
    rw [ih]
    have hstep : (k ∈ (if !isTitle kv.2 && usedValue kv.2 then
          if acc.contains kv.1 then acc else acc ++ [kv.1]
        else acc)) ↔
        k ∈ acc ∨ (kv.1 = k ∧ (!isTitle kv.2 && usedValue kv.2) = true) := by
      by_cases hcond : (!isTitle kv.2 && usedValue kv.2) = true
      · rw [if_pos hcond]
        by_cases hmem : acc.contains kv.1
        · rw [if_pos hmem]
          constructor
          · exact Or.inl
          · rintro (h | ⟨rfl, _⟩)
            · exact h
            · simpa using hmem
        · rw [if_neg hmem]
          simp only [List.mem_append, List.mem_singleton]
          constructor
          · rintro (h | rfl)
            · exact Or.inl h
            · exact Or.inr ⟨rfl, hcond⟩
          · rintro (h | ⟨rfl, _⟩)
            · exact Or.inl h
            · exact Or.inr rfl
      · rw [if_neg hcond]
        constructor
        · exact Or.inl
        · rintro (h | ⟨_, hc⟩)
          · exact h
          · exact absurd hc hcond
    rw [hstep]
    constructor
    · rintro ((h | ⟨rfl, hc⟩) | ⟨p, hp, hc⟩)
      · exact Or.inl h
      · exact Or.inr ⟨kv.2, List.mem_cons_self _ _, hc⟩
      · exact Or.inr ⟨p, List.mem_cons_of_mem _ hp, hc⟩
    · rintro (h | ⟨p, hp, hc⟩)
      · exact Or.inl (Or.inl h)
      · rcases List.mem_cons.mp hp with heq | htl
        · subst heq
          exact Or.inl (Or.inr ⟨rfl, hc⟩)
        · exact Or.inr ⟨p, htl, hc⟩

theorem mem_actualProperties_aux (pages : List Page) (acc : List String) (k : String) :
    k ∈ pages.foldl addActualProperties acc ↔
      k ∈ acc ∨ ∃ page ∈ pages, ∃ p, (k, p) ∈ page.properties ∧
        (!isTitle p && usedValue p) = true := by
  induction pages generalizing acc with
  | nil => simp
  | cons pg tl ih =>
    simp only [List.foldl_cons]
    rw [ih, mem_addActualProperties]
    constructor
    · rintro ((h | ⟨p, hp, hc⟩) | ⟨page, hpage, h⟩)
      · exact Or.inl h
      · exact Or.inr ⟨pg, List.mem_cons_self _ _, p, hp, hc⟩
      · exact Or.inr ⟨page, List.mem_cons_of_mem _ hpage, h⟩
    · rintro (h | ⟨page, hpage, h⟩)
      · exact Or.inl (Or.inl h)
      · rcases List.mem_cons.mp hpage with rfl | htl
        · exact Or.inl (Or.inr h)
        · exact Or.inr ⟨page, htl, h⟩

/-- Claim C5 counterexample: a checkbox property that is false in every
record of the batch, and a numeric property that is 0 in every record —
non-empty extracted values in the claim's sense — do not appear in the
`properties:` section of the generated .base file. -/
theorem actualProperties_counterexample :
    extractPropertyValue (Property.checkbox false) = JsValue.bool false ∧
    extractPropertyValue (Property.number (some 0)) = JsValue.num 0 ∧
    actualProperties [uncheckedPage] = [] := by
  decide

/-- Claim C5 (amended): a non-title property appears in the `properties:`
section of the generated .base file exactly when some record of the batch
gives it an extracted value that is truthy and whose string form contains a
non-whitespace character.  A property that is empty in every record never
appears; but a property whose only values are boolean false or the number 0
is falsy, hence also omitted (`actualProperties_counterexample`). -/
theorem actualProperties_mem_iff (pages : List Page) (k : String) :
    k ∈ actualProperties pages ↔
      ∃ page ∈ pages, ∃ p, (k, p) ∈ page.properties ∧
        isTitle p = false ∧ usedValue p = true := by
  unfold actualProperties
  rw [mem_actualProperties_aux]
  simp only [List.not_mem_nil, false_or, Bool.and_eq_true, Bool.not_eq_true']

theorem stageProgress_mono (a b total : Nat) {i j : Nat} (h : i ≤ j) :
    stageProgress a b total i ≤ stageProgress a b total j := by
  unfold stageProgress mathRound
  apply Nat.div_le_div_right
  have hb : b * (i + 1) ≤ b * (j + 1) := Nat.mul_le_mul (Nat.le_refl b) (by omega)
  omega

theorem stageProgress_lower (a b total i : Nat) (htotal : 0 < total) :
    a ≤ stageProgress a b total i := by
  unfold stageProgress mathRound
  rw [Nat.le_div_iff_mul_le (by omega : 0 < 2 * total)]
  have e : 2 * (a * total + b * (i + 1)) + total =
      a * (2 * total) + (2 * (b * (i + 1)) + total) := by ring
  rw [e]
  exact Nat.le_add_right _ _

theorem stageProgress_upper (a b total i : Nat) (hi : i < total) :
    stageProgress a b total i ≤ a + b := by
  have htotal : 0 < total := by omega
  unfold stageProgress mathRound
  have hnum : 2 * (a * total + b * (i + 1)) + total ≤ 2 * total * (a + b) + total := by
    have hb : b * (i + 1) ≤ b * total := Nat.mul_le_mul (Nat.le_refl b) (by omega)
    have e : 2 * total * (a + b) = 2 * (a * total) + 2 * (b * total) := by ring
    omega
  calc (2 * (a * total + b * (i + 1)) + total) / (2 * total)
      ≤ (2 * total * (a + b) + total) / (2 * total) := Nat.div_le_div_right hnum
    _ = (a + b) + total / (2 * total) := Nat.mul_add_div (by omega) _ _
    _ = a + b := by rw [Nat.div_eq_of_lt (by omega), Nat.add_zero]

theorem filterMapRange_pairwise (a b total : Nat) (cond : Nat → Bool) :
    ((List.range total).filterMap (fun i =>
      if cond i then some (stageProgress a b total i) else none)).Pairwise (· ≤ ·) := by
  refine List.Pairwise.filterMap _ ?_ (List.pairwise_lt_range total)
  intro i j hij x hx y hy
  by_cases hci : cond i
  · rw [if_pos hci, Option.mem_some_iff] at hx
    by_cases hcj : cond j
    · rw [if_pos hcj, Option.mem_some_iff] at hy
      rw [← hx, ← hy]
      exact stageProgress_mono a b total (Nat.le_of_lt hij)
    · rw [if_neg hcj] at hy
      simp at hy
  · rw [if_neg hci] at hx
    simp at hx

theorem filterMapRange_mem_bounds (a b total : Nat) (cond : Nat → Bool) (x : Nat)
    (hx : x ∈ (List.range total).filterMap (fun i =>
      if cond i then some (stageProgress a b total i) else none)) :
    a ≤ x ∧ x ≤ a + b := by
  rcases List.mem_filterMap.mp hx with ⟨i, hi, hmem⟩
  have hit : i < total := List.mem_range.mp hi
  by_cases hc : cond i
  · rw [if_pos hc, Option.some.injEq] at hmem
    rw [← hmem]
    exact ⟨stageProgress_lower a b total i (by omega),
      stageProgress_upper a b total i hit⟩
  · rw [if_neg hc] at hmem
    simp at hmem

theorem paginationTrace_pairwise (numBatches : Nat) :
    (paginationTrace numBatches).Pairwise (· ≤ ·) := by
  unfold paginationTrace
  rw [List.pairwise_append]
  refine ⟨List.pairwise_replicate.mpr (Or.inr (Nat.le_refl 40)), by simp, ?_⟩
  intro x hx y hy
  rw [List.eq_of_mem_replicate hx, List.mem_singleton.mp hy]
  omega

theorem paginationTrace_mem (numBatches : Nat) :
    ∀ x ∈ paginationTrace numBatches, 40 ≤ x ∧ x ≤ 50 := by
  intro x hx
  unfold paginationTrace at hx
  rcases List.mem_append.mp hx with h | h
  · rw [List.eq_of_mem_replicate h]
    omega
  · rw [List.mem_singleton.mp h]
    omega

theorem strategyTrace_pairwise (format : ConversionFormat) (outcomes : List Bool) :
    (strategyTrace format outcomes).Pairwise (· ≤ ·) := by
  cases format with
  | separatePages =>
    exact filterMapRange_pairwise 50 40 outcomes.length _
  | dataviewTable =>
    rw [strategyTrace, List.pairwise_append]
    refine ⟨filterMapRange_pairwise 50 30 outcomes.length _, by simp, ?_⟩
    intro x hx y hy
    have h1 := (filterMapRange_mem_bounds 50 30 outcomes.length _ x hx).2
    rw [List.mem_singleton.mp hy]
    omega
  | markdownTable =>
    rw [strategyTrace, tableTrace, List.pairwise_cons]
    refine ⟨?_, filterMapRange_pairwise 60 30 outcomes.length _⟩
    intro y hy
    exact (filterMapRange_mem_bounds 60 30 outcomes.length _ y hy).1
  | obsidianBase =>
    rw [strategyTrace, List.pairwise_append]
    refine ⟨filterMapRange_pairwise 50 30 outcomes.length _, by simp, ?_⟩
    intro x hx y hy
    have h1 := (filterMapRange_mem_bounds 50 30 outcomes.length _ x hx).2
    rw [List.mem_singleton.mp hy]
    omega

theorem strategyTrace_mem_bounds (format : ConversionFormat) (outcomes : List Bool) :
    ∀ x ∈ strategyTrace format outcomes, 50 ≤ x ∧ x ≤ 90 := by
  intro x hx
  cases format with
  | separatePages =>
    have h := filterMapRange_mem_bounds 50 40 outcomes.length _ x hx
    omega
  | dataviewTable =>
    rw [strategyTrace] at hx
    rcases List.mem_append.mp hx with h | h
    · have := filterMapRange_mem_bounds 50 30 outcomes.length _ x h
      omega
    · rw [List.mem_singleton.mp h]
      omega
  | markdownTable =>
    rw [strategyTrace, tableTrace] at hx
    rcases List.mem_cons.mp hx with rfl | h
    · omega
    · have := filterMapRange_mem_bounds 60 30 outcomes.length _ x h
      omega
  | obsidianBase =>
    rw [strategyTrace] at hx
    rcases List.mem_append.mp hx with h | h
    · have := filterMapRange_mem_bounds 50 30 outcomes.length _ x h
      omega
    · rw [List.mem_singleton.mp h]
      omega

theorem jobProgressTrace_mem_le (numBatches : Nat) (format : ConversionFormat)
    (outcomes : List Bool) :
    ∀ x ∈ jobProgressTrace numBatches format outcomes, x ≤ 100 := by
  intro x hx
  unfold jobProgressTrace at hx
  rcases List.mem_append.mp hx with hx | hx
  · rcases List.mem_append.mp hx with hx | hx
    · rcases List.mem_append.mp hx with hx | hx
      · rcases List.mem_append.mp hx with hx | hx
        · simp at hx
          rcases hx with rfl | rfl | rfl | rfl <;> omega
        · have := (paginationTrace_mem numBatches x hx).2
          omega
      · rw [List.mem_singleton.mp hx]
        omega
    · have := (strategyTrace_mem_bounds format outcomes x hx).2
      omega
  · rw [List.mem_singleton.mp hx]

theorem jobProgressTrace_pairwise (numBatches : Nat) (format : ConversionFormat)
    (outcomes : List Bool) :
    (jobProgressTrace numBatches format outcomes).Pairwise (· ≤ ·) := by
  unfold jobProgressTrace
  rw [List.pairwise_append]
  refine ⟨?_, by simp, ?_⟩
  · rw [List.pairwise_append]
    refine ⟨?_, strategyTrace_pairwise format outcomes, ?_⟩
    · rw [List.pairwise_append]
      refine ⟨?_, by simp, ?_⟩
      · rw [List.pairwise_append]
        refine ⟨by decide, paginationTrace_pairwise numBatches, ?_⟩
        intro a ha b hb
        have hb' := (paginationTrace_mem numBatches b hb).1
        simp at ha
        rcases ha with rfl | rfl | rfl | rfl <;> omega
      · intro a ha b hb
        rw [List.mem_singleton.mp hb]
        rcases List.mem_append.mp ha with h | h
        · simp at h
          rcases h with rfl | rfl | rfl | rfl <;> omega
        · exact (paginationTrace_mem numBatches a h).2
    · intro a ha b hb
      have hb' := (strategyTrace_mem_bounds format outcomes b hb).1
      rcases List.mem_append.mp ha with h | h
      · rcases List.mem_append.mp h with h | h
        · simp at h
          rcases h with rfl | rfl | rfl | rfl <;> omega
        · have := (paginationTrace_mem numBatches a h).2
          omega
      · rw [List.mem_singleton.mp h]
        omega
  · intro a ha b hb
    rw [List.mem_singleton.mp hb]
    exact jobProgressTrace_mem_le numBatches format outcomes a (List.mem_append_left _ ha)

/-- Claim C6: for every conversion job that runs to completion — any format
strategy, any number of pagination batches, any per-record success
outcomes — the sequence of emitted progress percentages is non-decreasing,
every value is at most 100 (they are naturals, hence at least 0), and the
final emitted value is exactly 100. -/
theorem jobProgress_monotone_bounded_complete (numBatches : Nat)
    (format : ConversionFormat) (outcomes : List Bool) :
    (jobProgressTrace numBatches format outcomes).Pairwise (· ≤ ·) ∧
    (∀ x ∈ jobProgressTrace numBatches format outcomes, x ≤ 100) ∧
    (jobProgressTrace numBatches format outcomes).getLast? = some 100 := by
  refine ⟨jobProgressTrace_pairwise numBatches format outcomes,
    jobProgressTrace_mem_le numBatches format outcomes, ?_⟩
  unfold jobProgressTrace
  exact List.getLast?_concat _

end NotionToObsidian
